import Mathlib

/-!
Verification of the metered execution core of the soroban host environment.

This file gives a shallow embedding in Lean of three subsystems of the
repository and proves properties of their specification against it:

* the packed small-symbol value representation
  (`soroban-env-common/src/symbol.rs`);
* the budget / resource meter
  (`soroban-env-host/src/budget.rs`);
* the contract-instance / code storage access facade
  (`soroban-env-host/src/host/data_helper.rs`).

Machine integers are modelled as `Nat` with explicit saturation at
`2^64 - 1` (all budget arithmetic in the source saturates) and explicit
`% 2^64` where the source wraps (the symbol iterator's left shift).
Fallible code returns `Except`; a Rust panic (out-of-bounds vector
indexing) is modelled by an `Option` result being `none`.
-/

/-! ## Saturating 64-bit arithmetic -/

/-- Largest value of a `u64`. -/
def U64MAX : Nat := 2 ^ 64 - 1

/-- Largest value of a `u32`. -/
def U32MAX : Nat := 2 ^ 32 - 1

/-- `u64::saturating_add`. -/
def satAdd (a b : Nat) : Nat := min (a + b) U64MAX

/-- `u64::saturating_mul`. -/
def satMul (a b : Nat) : Nat := min (a * b) U64MAX

/-- `u32::saturating_add`. -/
def satAdd32 (a b : Nat) : Nat := min (a + b) U32MAX

/-! ## Symbol: 6-bit packed small symbols

Embedding of `SymbolSmall` from `soroban-env-common/src/symbol.rs`.
A symbol body is the `u64` accumulator built by `try_from_bytes`.
Characters are modelled as their byte values (the source casts each
`u8` to `char` before matching; for bytes the two agree).
-/

/-- Maximum number of characters in a small symbol (9). -/
def MAX_SMALL_CHARS : Nat := 9

/-- Errors from `SymbolSmall` operations, mirroring `SymbolError`. -/
inductive SymbolError where
  | tooLong (len : Nat)
  | badChar (ch : Nat)
deriving DecidableEq, Repr

/-- `SymbolSmall::encode_char`: maps a byte to its 6-bit code.
`_` is 1, digits are 2..11, uppercase 12..37, lowercase 38..63;
everything else is rejected (`BadChar`). -/
def encode_char (c : Nat) : Option Nat :=
  if c = 95 then some 1
  else if 48 ≤ c ∧ c ≤ 57 then some (2 + (c - 48))
  else if 65 ≤ c ∧ c ≤ 90 then some (12 + (c - 65))
  else if 97 ≤ c ∧ c ≤ 122 then some (38 + (c - 97))
  else none

/-- The 6-bit code of an admissible byte (0 for inadmissible ones). -/
def codeOf (c : Nat) : Nat := (encode_char c).getD 0

/-- Loop body of `SymbolSmall::try_from_bytes`: `n` counts the bytes
already consumed, `accum` is the body accumulator. The error value
`tooLong` carries the length of the whole input slice. -/
def tryFromBytesGo : List Nat → Nat → Nat → Except SymbolError Nat
  | [], _, accum => .ok accum
  | ch :: rest, n, accum =>
    if n ≥ MAX_SMALL_CHARS then .error (.tooLong (n + 1 + rest.length))
    else
      match encode_char ch with
      | some v => tryFromBytesGo rest (n + 1) (accum * 64 + v)
      | none => .error (.badChar ch)

/-- `SymbolSmall::try_from_bytes`: packs up to 9 six-bit codes into the
body, accumulating `accum = accum << 6 | code` left to right. -/
def try_from_bytes (b : List Nat) : Except SymbolError Nat :=
  tryFromBytesGo b 0 0

/-- `SymbolSmall::try_from_str` forwards to `try_from_bytes` on the
string's bytes. -/
def try_from_str (s : List Nat) : Except SymbolError Nat :=
  try_from_bytes s

/-- One arm of `SymbolSmallIter::next`: decodes a 6-bit code back to a
byte; `none` models the `b'\x00'` result that the iterator skips. -/
def decodeCode (k : Nat) : Option Nat :=
  if k = 1 then some 95
  else if 2 ≤ k ∧ k ≤ 11 then some (48 + (k - 2))
  else if 12 ≤ k ∧ k ≤ 37 then some (65 + (k - 12))
  else if 38 ≤ k ∧ k ≤ 63 then some (97 + (k - 38))
  else none

/-- The byte a 6-bit code decodes to (0 for the skipped code 0). -/
def decodeByte (k : Nat) : Nat := (decodeCode k).getD 0

/-- Full run of `SymbolSmallIter`: while the state is nonzero, read the
top six bits (bits 48..53), shift left by six (wrapping in `u64`), and
yield the decoded byte unless the code was zero. The `fuel` argument
bounds the number of loop iterations; since `st * 64^11 % 2^64 = 0` for
every `st`, eleven iterations always drain the state, so running with
fuel 11 is a faithful model of the Rust iterator run to completion. -/
def symIterChars : Nat → Nat → List Nat
  | 0, _ => []
  | fuel + 1, st =>
    if st = 0 then []
    else
      let code := st / 2 ^ 48 % 64
      let rest := symIterChars fuel (st * 64 % 2 ^ 64)
      match decodeCode code with
      | some c => c :: rest
      | none => rest

/-- `SCSYMBOL_LIMIT` from the stellar XDR definitions: capacity of a
`SymbolStr` byte array. -/
def SCSYMBOL_LIMIT : Nat := 32

/-- `SymbolSmall::to_str`: renders the decoded characters into a
zero-initialized `SCSYMBOL_LIMIT`-byte array. -/
def to_str (body : Nat) : List Nat :=
  let cs := symIterChars 11 body
  cs ++ List.replicate (SCSYMBOL_LIMIT - cs.length) 0

/-- `SymbolStr::len`: index of the first zero byte (or the whole length). -/
def symbolStrLen : List Nat → Nat
  | [] => 0
  | x :: xs => if x = 0 then 0 else 1 + symbolStrLen xs

/-- `SymbolStr::as_ref`: the bytes up to the first zero. -/
def symbolStrBytes (a : List Nat) : List Nat := a.take (symbolStrLen a)

/-- `Ord::cmp` on byte values (`u8` / ASCII `char` ordering). -/
def natCmp (a b : Nat) : Ordering :=
  if a < b then .lt else if a = b then .eq else .gt

/-- Lexicographic comparison of byte sequences: semantics of both
`Iterator::cmp` over decoded characters and `str::cmp` on the original
ASCII strings. -/
def bytesCmp : List Nat → List Nat → Ordering
  | [], [] => .eq
  | [], _ :: _ => .lt
  | _ :: _, [] => .gt
  | x :: xs, y :: ys =>
    match natCmp x y with
    | .eq => bytesCmp xs ys
    | o => o

/-- `Ord for SymbolSmall`: compares the iterator-decoded character
sequences of the two bodies (`Iterator::cmp(self.into_iter(), *other)`). -/
def symbolSmallCmp (x y : Nat) : Ordering :=
  bytesCmp (symIterChars 11 x) (symIterChars 11 y)

/-- Admissibility of a byte string for the small-symbol form: at most
nine bytes, all from `[a-zA-Z0-9_]`. -/
def validSmall (s : List Nat) : Prop :=
  s.length ≤ MAX_SMALL_CHARS ∧ ∀ c ∈ s, (encode_char c).isSome

/-- Accumulator version of the packed value of a code list. -/
def codesValAux : Nat → List Nat → Nat
  | a, [] => a
  | a, c :: rest => codesValAux (a * 64 + c) rest

/-- Packed value of a list of 6-bit codes, first code most significant. -/
def codesVal (l : List Nat) : Nat := codesValAux 0 l

/-! ## Budget: cost models and budget dimensions

Embedding of `soroban-env-host/src/budget.rs`.
-/

/-- Error values `(ScErrorType, ScErrorCode)` raised by the budget and
storage code. -/
inductive ScError where
  | budgetExceededLimit
  | contextInternalError
  | contextInvalidInput
  | storageInternalError
deriving DecidableEq, Repr

/-- `COST_MODEL_LIN_TERM_SCALE_BITS = 7`. -/
def COST_MODEL_LIN_TERM_SCALE_BITS : Nat := 7

/-- `ScaledU64::unscale`: logical right shift by the scale bits. -/
def unscale (x : Nat) : Nat := x / 2 ^ COST_MODEL_LIN_TERM_SCALE_BITS

/-- A linear cost model `(const_term, lin_term)`; `lin_term` holds the
scaled `u64` payload of `ScaledU64`. -/
structure MeteredCostComponent where
  const_term : Nat
  lin_term : Nat
deriving DecidableEq, Repr

/-- `MeteredCostComponent::evaluate`: `const_term` for a `None` input;
otherwise `const_term ⊕ (lin_term ·sat input).unscale()` unless the
linear term is zero, in which case the linear part is skipped. -/
def evaluate (cm : MeteredCostComponent) (input : Option Nat) : Nat :=
  match input with
  | some i =>
    if cm.lin_term ≠ 0 then satAdd cm.const_term (unscale (satMul cm.lin_term i))
    else cm.const_term
  | none => cm.const_term

/-- `TryFrom<&ContractCostParamEntry> for MeteredCostComponent`:
rejects negative terms with `(Context, InvalidInput)`. -/
def costComponentTryFrom (e : Int × Int) : Except ScError MeteredCostComponent :=
  if e.1 < 0 ∨ e.2 < 0 then .error .contextInvalidInput
  else .ok ⟨e.1.toNat, e.2.toNat⟩

/-- `BudgetDimension`: per-cost-type models and counts (vectors indexed
by the cost type's ordinal), a limit and a running total. -/
structure BudgetDimension where
  cost_models : List MeteredCostComponent
  limit : Nat
  counts : List Nat
  total_count : Nat

/-- `BudgetDimension::get_cost_model`: vector indexing by ordinal;
`none` models the Rust out-of-bounds panic. -/
def getCostModel (bd : BudgetDimension) (ty : Nat) : Option MeteredCostComponent :=
  bd.cost_models.get? ty

/-- `BudgetDimension::charge`: evaluates the model, saturating-multiplies
by `iterations`, saturating-adds the amount to `counts[ty]` and
`total_count`, then fails with `(Budget, ExceededLimit)` iff the updated
total exceeds the limit. A `none` result models the out-of-bounds panic
when `ty`'s ordinal is not covered by the model or count vectors. -/
def chargeDim (bd : BudgetDimension) (ty : Nat) (iterations : Nat) (input : Option Nat) :
    Option (Except ScError Unit × BudgetDimension) :=
  match getCostModel bd ty with
  | none => none
  | some cm =>
    match bd.counts.get? ty with
    | none => none
    | some cnt =>
      let amount := satMul (evaluate cm input) iterations
      let bd' : BudgetDimension :=
        { bd with
          counts := bd.counts.set ty (satAdd cnt amount)
          total_count := satAdd bd.total_count amount }
      if bd'.total_count > bd'.limit then some (.error .budgetExceededLimit, bd')
      else some (.ok (), bd')

/-- `collect::<Result<Vec<_>, _>>` over `MeteredCostComponent::try_from`:
short-circuits at the first invalid entry. -/
def collectModels : List (Int × Int) → Except ScError (List MeteredCostComponent)
  | [] => .ok []
  | e :: rest => do
    let m ← costComponentTryFrom e
    let ms ← collectModels rest
    .ok (m :: ms)

/-- `BudgetDimension::try_from_config`: the model vector's length equals
the schedule's length (the dimension trusts the schedule's own length),
counts are zeroed at the same length, limit and total are zero. -/
def tryFromConfig (ps : List (Int × Int)) : Except ScError BudgetDimension := do
  let ms ← collectModels ps
  .ok { cost_models := ms, limit := 0, counts := List.replicate ps.length 0, total_count := 0 }

/-- `ContractCostType`: the closed, consensus-critical enumeration of
metered operations, in ordinal order. -/
inductive CostType where
  | WasmInsnExec
  | WasmMemAlloc
  | HostMemAlloc
  | HostMemCpy
  | HostMemCmp
  | DispatchHostFunction
  | VisitObject
  | ValSer
  | ValDeser
  | ComputeSha256Hash
  | ComputeEd25519PubKey
  | MapEntry
  | VecEntry
  | VerifyEd25519Sig
  | VmMemRead
  | VmMemWrite
  | VmInstantiation
  | VmCachedInstantiation
  | InvokeVmFunction
  | ComputeKeccak256Hash
  | ComputeEcdsaSecp256k1Key
  | ComputeEcdsaSecp256k1Sig
  | RecoverEcdsaSecp256k1Key
  | Int256AddSub
  | Int256Mul
  | Int256Div
  | Int256Pow
  | Int256Shift
deriving DecidableEq, Repr

/-- `ContractCostType::variants()`, in ordinal order. -/
def CostType.variants : List CostType :=
  [.WasmInsnExec, .WasmMemAlloc, .HostMemAlloc, .HostMemCpy, .HostMemCmp,
   .DispatchHostFunction, .VisitObject, .ValSer, .ValDeser, .ComputeSha256Hash,
   .ComputeEd25519PubKey, .MapEntry, .VecEntry, .VerifyEd25519Sig, .VmMemRead,
   .VmMemWrite, .VmInstantiation, .VmCachedInstantiation, .InvokeVmFunction,
   .ComputeKeccak256Hash, .ComputeEcdsaSecp256k1Key, .ComputeEcdsaSecp256k1Sig,
   .RecoverEcdsaSecp256k1Key, .Int256AddSub, .Int256Mul, .Int256Div,
   .Int256Pow, .Int256Shift]

/-- `ty as usize`: the ordinal of a cost type. -/
def CostType.ordinal : CostType → Nat
  | .WasmInsnExec => 0
  | .WasmMemAlloc => 1
  | .HostMemAlloc => 2
  | .HostMemCpy => 3
  | .HostMemCmp => 4
  | .DispatchHostFunction => 5
  | .VisitObject => 6
  | .ValSer => 7
  | .ValDeser => 8
  | .ComputeSha256Hash => 9
  | .ComputeEd25519PubKey => 10
  | .MapEntry => 11
  | .VecEntry => 12
  | .VerifyEd25519Sig => 13
  | .VmMemRead => 14
  | .VmMemWrite => 15
  | .VmInstantiation => 16
  | .VmCachedInstantiation => 17
  | .InvokeVmFunction => 18
  | .ComputeKeccak256Hash => 19
  | .ComputeEcdsaSecp256k1Key => 20
  | .ComputeEcdsaSecp256k1Sig => 21
  | .RecoverEcdsaSecp256k1Key => 22
  | .Int256AddSub => 23
  | .Int256Mul => 24
  | .Int256Div => 25
  | .Int256Pow => 26
  | .Int256Shift => 27

/-- Default CPU cost model per cost type, from `BudgetImpl::default()`:
`(const_term, lin_term)` with the linear term scaled by `2^7`. -/
def defaultCpuModel : CostType → MeteredCostComponent
  | .WasmInsnExec => ⟨6, 0⟩
  | .WasmMemAlloc => ⟨0, 0⟩
  | .HostMemAlloc => ⟨1141, 1⟩
  | .HostMemCpy => ⟨39, 24⟩
  | .HostMemCmp => ⟨20, 64⟩
  | .DispatchHostFunction => ⟨263, 0⟩
  | .VisitObject => ⟨108, 0⟩
  | .ValSer => ⟨591, 69⟩
  | .ValDeser => ⟨1112, 34⟩
  | .ComputeSha256Hash => ⟨2924, 4149⟩
  | .ComputeEd25519PubKey => ⟨25584, 0⟩
  | .MapEntry => ⟨53, 0⟩
  | .VecEntry => ⟨0, 0⟩
  | .VerifyEd25519Sig => ⟨376877, 2747⟩
  | .VmMemRead => ⟨182, 24⟩
  | .VmMemWrite => ⟨182, 24⟩
  | .VmInstantiation => ⟨967154, 69991⟩
  | .VmCachedInstantiation => ⟨967154, 69991⟩
  | .InvokeVmFunction => ⟨1125, 0⟩
  | .ComputeKeccak256Hash => ⟨2890, 3561⟩
  | .ComputeEcdsaSecp256k1Key => ⟨38363, 0⟩
  | .ComputeEcdsaSecp256k1Sig => ⟨224, 0⟩
  | .RecoverEcdsaSecp256k1Key => ⟨1666155, 0⟩
  | .Int256AddSub => ⟨1716, 0⟩
  | .Int256Mul => ⟨2226, 0⟩
  | .Int256Div => ⟨2333, 0⟩
  | .Int256Pow => ⟨5212, 0⟩
  | .Int256Shift => ⟨412, 0⟩

/-- Default memory cost model per cost type, from `BudgetImpl::default()`. -/
def defaultMemModel : CostType → MeteredCostComponent
  | .WasmInsnExec => ⟨0, 0⟩
  | .WasmMemAlloc => ⟨1, 0⟩
  | .HostMemAlloc => ⟨16, 128⟩
  | .HostMemCpy => ⟨0, 0⟩
  | .HostMemCmp => ⟨0, 0⟩
  | .DispatchHostFunction => ⟨0, 0⟩
  | .VisitObject => ⟨0, 0⟩
  | .ValSer => ⟨18, 384⟩
  | .ValDeser => ⟨16, 128⟩
  | .ComputeSha256Hash => ⟨40, 0⟩
  | .ComputeEd25519PubKey => ⟨0, 0⟩
  | .MapEntry => ⟨0, 0⟩
  | .VecEntry => ⟨0, 0⟩
  | .VerifyEd25519Sig => ⟨0, 0⟩
  | .VmMemRead => ⟨0, 0⟩
  | .VmMemWrite => ⟨0, 0⟩
  | .VmInstantiation => ⟨131103, 5080⟩
  | .VmCachedInstantiation => ⟨131103, 5080⟩
  | .InvokeVmFunction => ⟨14, 0⟩
  | .ComputeKeccak256Hash => ⟨40, 0⟩
  | .ComputeEcdsaSecp256k1Key => ⟨0, 0⟩
  | .ComputeEcdsaSecp256k1Sig => ⟨0, 0⟩
  | .RecoverEcdsaSecp256k1Key => ⟨201, 0⟩
  | .Int256AddSub => ⟨119, 0⟩
  | .Int256Mul => ⟨119, 0⟩
  | .Int256Div => ⟨119, 0⟩
  | .Int256Pow => ⟨119, 0⟩
  | .Int256Shift => ⟨119, 0⟩

/-- `BudgetImpl::init_tracker`: the input slot is `Some 0` exactly for the
cost types whose cost is linear in an input, `None` for constant ones. -/
def trackerInitInput : CostType → Option Nat
  | .HostMemAlloc => some 0
  | .HostMemCpy => some 0
  | .HostMemCmp => some 0
  | .ValSer => some 0
  | .ValDeser => some 0
  | .ComputeSha256Hash => some 0
  | .VerifyEd25519Sig => some 0
  | .VmMemRead => some 0
  | .VmMemWrite => some 0
  | .VmInstantiation => some 0
  | .VmCachedInstantiation => some 0
  | .ComputeKeccak256Hash => some 0
  | _ => none

/-- `MeterTracker`: per-cost-type `(iterations_sum, input_sum)` pairs
(a fixed-size array in the source, hence a total function here) and the
total number of meter calls. -/
structure MeterTracker where
  cost_tracker : CostType → Nat × Option Nat
  count : Nat

/-- `BudgetImpl`: the two dimensions, the tracker and the enabled flag
(the fuel configuration and depth limit play no role in the claims). -/
structure BudgetImpl where
  cpu_insns : BudgetDimension
  mem_bytes : BudgetDimension
  tracker : MeterTracker
  enabled : Bool

/-- `DEFAULT_CPU_INSN_LIMIT`. -/
def DEFAULT_CPU_INSN_LIMIT : Nat := 100000000

/-- `DEFAULT_MEM_BYTES_LIMIT = 100 * 1024 * 1024`. -/
def DEFAULT_MEM_BYTES_LIMIT : Nat := 100 * 1024 * 1024

/-- `BudgetImpl::default()`: models populated per cost type in ordinal
order, counts zeroed, limits reset to the default limits. -/
def defaultBudgetImpl : BudgetImpl :=
  { cpu_insns :=
      { cost_models := CostType.variants.map defaultCpuModel
        limit := DEFAULT_CPU_INSN_LIMIT
        counts := List.replicate CostType.variants.length 0
        total_count := 0 }
    mem_bytes :=
      { cost_models := CostType.variants.map defaultMemModel
        limit := DEFAULT_MEM_BYTES_LIMIT
        counts := List.replicate CostType.variants.length 0
        total_count := 0 }
    tracker := { cost_tracker := fun ct => (0, trackerInitInput ct), count := 0 }
    enabled := true }

/-- `BudgetImpl::charge` (also the body of `Budget::charge` and
`Budget::bulk_charge`): no-op when disabled; otherwise updates the
tracker (failing with `(Context, InternalError)` when the input presence
does not match the tracker slot, after the iteration sums were already
updated), then charges the CPU dimension and, if that succeeded, the
memory dimension. A `none` result models an indexing panic inside a
dimension. -/
def budgetImplCharge (b : BudgetImpl) (ty : CostType) (iterations : Nat)
    (input : Option Nat) : Option (Except ScError Unit × BudgetImpl) :=
  if !b.enabled then some (.ok (), b)
  else
    let count' := satAdd32 b.tracker.count 1
    let entry := b.tracker.cost_tracker ty
    let t_iters' := satAdd entry.1 iterations
    match entry.2, input with
    | none, some _ =>
      some (.error .contextInternalError,
        { b with tracker :=
            { cost_tracker := fun t => if t = ty then (t_iters', entry.2) else b.tracker.cost_tracker t
              count := count' } })
    | some _, none =>
      some (.error .contextInternalError,
        { b with tracker :=
            { cost_tracker := fun t => if t = ty then (t_iters', entry.2) else b.tracker.cost_tracker t
              count := count' } })
    | tIn, _ =>
      let t_inputs' : Option Nat :=
        match tIn, input with
        | some t, some i => some (satAdd t (satMul i iterations))
        | _, _ => tIn
      let tracker' : MeterTracker :=
        { cost_tracker := fun t => if t = ty then (t_iters', t_inputs') else b.tracker.cost_tracker t
          count := count' }
      match chargeDim b.cpu_insns ty.ordinal iterations input with
      | none => none
      | some (.error e, cpu') =>
        some (.error e, { b with cpu_insns := cpu', tracker := tracker' })
      | some (.ok _, cpu') =>
        match chargeDim b.mem_bytes ty.ordinal iterations input with
        | none => none
        | some (r, mem') =>
          some (r, { b with cpu_insns := cpu', mem_bytes := mem', tracker := tracker' })

/-- `Budget::with_free_budget`: saves the enabled flag, clears it, runs
`f` (modelled as an arbitrary transformer of the budget state returning
a result), then restores the saved flag unconditionally — on the success
and the error path of `f` alike — and returns `f`'s result. -/
def withFreeBudget {T : Type} (f : BudgetImpl → Except ScError T × BudgetImpl)
    (b : BudgetImpl) : Except ScError T × BudgetImpl :=
  let prev := b.enabled
  let p := f { b with enabled := false }
  (p.1, { p.2 with enabled := prev })

/-- `Budget::get_mem_bytes_remaining` /
`BudgetDimension::get_remaining`: saturating `limit - total_count`. -/
def memBytesRemaining (b : BudgetImpl) : Nat :=
  b.mem_bytes.limit - b.mem_bytes.total_count

/-- `wasmi::errors::MemoryError` as surfaced by the resource limiter. -/
inductive MemoryError where
  | outOfBoundsGrowth
deriving DecidableEq, Repr

/-- `ResourceLimiter::memory_growing` for `Host`: deny when the desired
size exceeds the remaining memory budget or the engine maximum;
otherwise bulk-charge `WasmMemAlloc` for the grown delta (saturating
`desired - current`) with no input, mapping a successful charge to
`true` and any charging failure to `OutOfBoundsGrowth`. A `none` result
models an indexing panic inside the charge. -/
def memoryGrowing (b : BudgetImpl) (current desired : Nat) (maximum : Option Nat) :
    Option (Except MemoryError Bool × BudgetImpl) :=
  let host_limit := memBytesRemaining b
  let allow :=
    if desired > host_limit then false
    else
      match maximum with
      | some mx => decide (desired ≤ mx)
      | none => true
  if allow then
    match budgetImplCharge b .WasmMemAlloc (desired - current) none with
    | none => none
    | some (.ok _, b') => some (.ok true, b')
    | some (.error _, b') => some (.error .outOfBoundsGrowth, b')
  else some (.error .outOfBoundsGrowth, b)

/-! ## Storage facade: bumping contract instance and code entries

Embedding of `Host::bump_contract_instance_and_code_from_contract_id`
from `soroban-env-host/src/host/data_helper.rs`. The storage collaborator
itself (`storage.rs`) is not part of the sources, so it is modelled from
the spec (see the individual definitions below).
-/

/-- `ContractExecutable`: a wasm hash or the built-in token. -/
inductive ContractExecutable where
  | wasm (hash : Nat)
  | token
deriving DecidableEq, Repr

/-- The two ledger keys used by the facade: the contract-instance
`ContractData` key (the source always builds it with
`key = LedgerKeyContractInstance`, `durability = Persistent`, so the
contract id determines it) and the `ContractCode` key for a wasm hash. -/
inductive LedgerKey where
  | contractInstance (contractId : Nat)
  | contractCode (hash : Nat)
deriving DecidableEq, Repr

/-- Modelled from the spec: the storage collaborator (`storage.rs` is not
among the sources). It holds the stored executable of each contract
instance (`none` when the entry is missing or malformed) and records
each `bump(key, low_wm, high_wm)` it receives, in call order. -/
structure StorageModel where
  instanceOf : Nat → Option ContractExecutable
  bumps : List (LedgerKey × Nat × Nat)

/-- Modelled from the spec: `storage.bump(host, key, low_wm, high_wm)`
(§6.1), recorded as an event on the storage model. -/
def storageBump (st : StorageModel) (k : LedgerKey) (lo hi : Nat) : StorageModel :=
  { st with bumps := st.bumps ++ [(k, lo, hi)] }

/-- `Host::retrieve_contract_instance_from_storage`, with the underlying
`storage.get` modelled from the spec: returns the stored instance's
executable, or a storage error when the entry is missing or does not
hold a contract instance. -/
def retrieveContractInstance (st : StorageModel) (cid : Nat) :
    Except ScError ContractExecutable :=
  match st.instanceOf cid with
  | some e => .ok e
  | none => .error .storageInternalError

/-- `Host::bump_contract_instance_and_code_from_contract_id`: bumps the
contract-instance entry, then retrieves the instance and, when its
executable is `Wasm(h)`, also bumps the `ContractCode(h)` entry with the
same watermarks; a `Token` executable bumps no code entry. -/
def bumpContractInstanceAndCode (st : StorageModel) (cid lo hi : Nat) :
    Except ScError Unit × StorageModel :=
  let st1 := storageBump st (.contractInstance cid) lo hi
  match retrieveContractInstance st1 cid with
  | .error e => (.error e, st1)
  | .ok (.wasm h) => (.ok (), storageBump st1 (.contractCode h) lo hi)
  | .ok .token => (.ok (), st1)

/-! ## Lemmas about the symbol encoding -/

theorem codesValAux_eq (l : List Nat) : ∀ a : Nat,
    codesValAux a l = a * 64 ^ l.length + codesVal l := by
  induction l with
  | nil => intro a; simp [codesValAux, codesVal]
  | cons c rest ih =>
    intro a
    have h1 : codesValAux a (c :: rest) = codesValAux (a * 64 + c) rest := rfl
    have h2 : codesVal (c :: rest) = codesValAux (0 * 64 + c) rest := rfl
    rw [h1, h2, ih (a * 64 + c), ih (0 * 64 + c)]
    simp [List.length_cons]
    ring

theorem codesVal_cons (c : Nat) (rest : List Nat) :
    codesVal (c :: rest) = c * 64 ^ rest.length + codesVal rest := by
  have h2 : codesVal (c :: rest) = codesValAux (0 * 64 + c) rest := rfl
  rw [h2, codesValAux_eq]
  simp

theorem codesVal_lt (l : List Nat) (h : ∀ k ∈ l, k < 64) :
    codesVal l < 64 ^ l.length := by
  induction l with
  | nil => simp [codesVal, codesValAux]
  | cons c rest ih =>
    rw [codesVal_cons]
    have hc : c < 64 := h c (by simp)
    have hr : codesVal rest < 64 ^ rest.length :=
      ih (fun k hk => h k (List.mem_cons_of_mem _ hk))
    have : c * 64 ^ rest.length + codesVal rest <
        c * 64 ^ rest.length + 64 ^ rest.length := by omega
    calc c * 64 ^ rest.length + codesVal rest
        < (c + 1) * 64 ^ rest.length := by rw [Nat.add_mul, Nat.one_mul]; exact this
      _ ≤ 64 * 64 ^ rest.length := Nat.mul_le_mul_right _ (by omega)
      _ = 64 ^ (c :: rest).length := by rw [List.length_cons]; ring

theorem encode_char_eq_some_codeOf {c : Nat} (h : (encode_char c).isSome) :
    encode_char c = some (codeOf c) := by
  obtain ⟨k, hk⟩ := Option.isSome_iff_exists.mp h
  simp [codeOf, hk]

theorem codeOf_range {c k : Nat} (h : encode_char c = some k) : 1 ≤ k ∧ k ≤ 63 := by
  unfold encode_char at h
  split_ifs at h <;> simp only [Option.some.injEq] at h <;> omega

theorem encode_decode_char {c k : Nat} (h : encode_char c = some k) :
    decodeCode k = some c := by
  unfold encode_char at h
  unfold decodeCode
  split_ifs at h with h1 h2 h3 h4 <;> simp only [Option.some.injEq] at h <;>
    split_ifs <;> first | (simp only [Option.some.injEq]; omega) | omega

theorem admissible_byte_ne_zero {c : Nat} (h : (encode_char c).isSome) : c ≠ 0 := by
  unfold encode_char at h
  split_ifs at h <;> simp_all <;> omega

theorem tryFromBytesGo_ok (b : List Nat) : ∀ n accum : Nat,
    n + b.length ≤ 9 → (∀ c ∈ b, (encode_char c).isSome) →
    tryFromBytesGo b n accum = .ok (codesValAux accum (b.map codeOf)) := by
  induction b with
  | nil => intro n accum _ _; rfl
  | cons c rest ih =>
    intro n accum hlen hval
    have hc : encode_char c = some (codeOf c) :=
      encode_char_eq_some_codeOf (hval c (by simp))
    have hn : ¬ n ≥ MAX_SMALL_CHARS := by
      simp only [List.length_cons] at hlen
      unfold MAX_SMALL_CHARS
      omega
    have hrest : ∀ x ∈ rest, (encode_char x).isSome :=
      fun x hx => hval x (List.mem_cons_of_mem _ hx)
    have hlen2 : (n + 1) + rest.length ≤ 9 := by
      simp only [List.length_cons] at hlen; omega
    show (if n ≥ MAX_SMALL_CHARS then _ else _) = _
    rw [if_neg hn, hc]
    show tryFromBytesGo rest (n + 1) (accum * 64 + codeOf c) = _
    rw [ih (n + 1) (accum * 64 + codeOf c) hlen2 hrest]
    rfl

theorem try_from_bytes_ok (b : List Nat) (hlen : b.length ≤ 9)
    (hval : ∀ c ∈ b, (encode_char c).isSome) :
    try_from_bytes b = .ok (codesVal (b.map codeOf)) := by
  unfold try_from_bytes
  rw [tryFromBytesGo_ok b 0 0 (by omega) hval]
  rfl

theorem goodCodes_of_valid (b : List Nat) (hval : ∀ c ∈ b, (encode_char c).isSome) :
    ∀ k ∈ b.map codeOf, 1 ≤ k ∧ k ≤ 63 := by
  intro k hk
  obtain ⟨c, hc, rfl⟩ := List.mem_map.mp hk
  exact codeOf_range (encode_char_eq_some_codeOf (hval c hc))

/-! ## Lemmas about the symbol iterator -/

theorem symIterChars_zero (fuel : Nat) : symIterChars fuel 0 = [] := by
  cases fuel with
  | zero => rfl
  | succ f => rfl

theorem symIterChars_succ (fuel st : Nat) :
    symIterChars (fuel + 1) st =
      if st = 0 then []
      else
        match decodeCode (st / 2 ^ 48 % 64) with
        | some c => c :: symIterChars fuel (st * 64 % 2 ^ 64)
        | none => symIterChars fuel (st * 64 % 2 ^ 64) := rfl

theorem decodeCode_eq_some {k : Nat} (h1 : 1 ≤ k) (h2 : k ≤ 63) :
    decodeCode k = some (decodeByte k) := by
  have hs : (decodeCode k).isSome := by
    unfold decodeCode
    split_ifs <;> simp <;> omega
  obtain ⟨v, hv⟩ := Option.isSome_iff_exists.mp hs
  rw [hv]
  simp [decodeByte, hv]

theorem symIter_tail {g : Nat} (hg : g < 1024) {fuel : Nat} (hfuel : 2 ≤ fuel) :
    symIterChars fuel (g * 2 ^ 54) = [] := by
  obtain ⟨f, rfl⟩ : ∃ f, fuel = f + 2 := ⟨fuel - 2, by omega⟩
  by_cases hg0 : g * 2 ^ 54 = 0
  · rw [show f + 2 = (f + 1) + 1 from rfl, symIterChars_succ, if_pos hg0]
  · rw [show f + 2 = (f + 1) + 1 from rfl, symIterChars_succ, if_neg hg0]
    have hcode : g * 2 ^ 54 / 2 ^ 48 % 64 = 0 := by omega
    have hst : g * 2 ^ 54 * 64 % 2 ^ 64 = g % 16 * 2 ^ 60 := by omega
    rw [hcode, hst]
    show symIterChars (f + 1) (g % 16 * 2 ^ 60) = []
    by_cases hg1 : g % 16 * 2 ^ 60 = 0
    · rw [symIterChars_succ, if_pos hg1]
    · rw [symIterChars_succ, if_neg hg1]
      have hcode2 : g % 16 * 2 ^ 60 / 2 ^ 48 % 64 = 0 := by omega
      have hst2 : g % 16 * 2 ^ 60 * 64 % 2 ^ 64 = 0 := by omega
      rw [hcode2, hst2]
      show symIterChars f 0 = []
      exact symIterChars_zero f

theorem symIter_phase2 (codes : List Nat) : ∀ (g fuel : Nat),
    (∀ k ∈ codes, 1 ≤ k ∧ k ≤ 63) → codes.length ≤ 9 → g < 1024 →
    codes.length + 2 ≤ fuel →
    symIterChars fuel (g * 2 ^ 54 + codesVal codes * 64 ^ (9 - codes.length)) =
      codes.map decodeByte := by
  induction codes with
  | nil =>
    intro g fuel _ _ hg hfuel
    have h0 : codesVal [] = 0 := rfl
    rw [h0, List.map_nil]
    simpa using symIter_tail hg (by simpa using hfuel)
  | cons c rest ih =>
    intro g fuel hgood hlen hg hfuel
    obtain ⟨f, rfl⟩ : ∃ f, fuel = f + 1 := ⟨fuel - 1, by omega⟩
    have hc : 1 ≤ c ∧ c ≤ 63 := hgood c (by simp)
    have hm : rest.length ≤ 8 := by simpa using hlen
    have hr : codesVal rest < 64 ^ rest.length :=
      codesVal_lt rest (fun k hk => by
        have := hgood k (List.mem_cons_of_mem _ hk); omega)
    have hA : (64 : Nat) ^ rest.length * 64 ^ (9 - (rest.length + 1)) = 2 ^ 48 := by
      rw [← pow_add]
      rw [show rest.length + (9 - (rest.length + 1)) = 8 by omega]
      norm_num
    have hR : codesVal rest * 64 ^ (9 - (rest.length + 1)) < 2 ^ 48 := by
      calc codesVal rest * 64 ^ (9 - (rest.length + 1))
          < 64 ^ rest.length * 64 ^ (9 - (rest.length + 1)) :=
            (Nat.mul_lt_mul_right (Nat.pos_pow_of_pos _ (by norm_num))).mpr hr
        _ = 2 ^ 48 := hA
    set R := codesVal rest * 64 ^ (9 - (rest.length + 1)) with hRdef
    have hstate : g * 2 ^ 54 + codesVal (c :: rest) * 64 ^ (9 - (c :: rest).length)
        = g * 2 ^ 54 + c * 2 ^ 48 + R := by
      rw [codesVal_cons, List.length_cons, hRdef, Nat.add_mul, Nat.mul_assoc, hA]
      ring
    rw [hstate]
    have hne : g * 2 ^ 54 + c * 2 ^ 48 + R ≠ 0 := by omega
    have hcode : (g * 2 ^ 54 + c * 2 ^ 48 + R) / 2 ^ 48 % 64 = c := by omega
    have hst : (g * 2 ^ 54 + c * 2 ^ 48 + R) * 64 % 2 ^ 64
        = (g % 16 * 64 + c) * 2 ^ 54 + R * 64 := by omega
    have hR64 : R * 64 = codesVal rest * 64 ^ (9 - rest.length) := by
      rw [hRdef, Nat.mul_assoc, ← pow_succ]
      rw [show 9 - (rest.length + 1) + 1 = 9 - rest.length by omega]
    rw [symIterChars_succ, if_neg hne, hcode, decodeCode_eq_some hc.1 hc.2]
    rw [hst, hR64, List.map_cons]
    have hg2 : g % 16 * 64 + c < 1024 := by omega
    rw [ih (g % 16 * 64 + c) f (fun k hk => hgood k (List.mem_cons_of_mem _ hk))
      (by omega) hg2 (by simp at hfuel; omega)]

theorem symIter_phase1 (d : Nat) : ∀ (codes : List Nat) (fuel : Nat),
    (∀ k ∈ codes, 1 ≤ k ∧ k ≤ 63) → codes.length + d ≤ 9 →
    codes.length + d + 2 ≤ fuel →
    symIterChars fuel (codesVal codes * 64 ^ (9 - codes.length - d)) =
      codes.map decodeByte := by
  induction d with
  | zero =>
    intro codes fuel hgood hlen hfuel
    have h := symIter_phase2 codes 0 fuel hgood (by omega) (by norm_num) (by omega)
    simpa using h
  | succ d ihd =>
    intro codes fuel hgood hlen hfuel
    match codes with
    | [] =>
      have h0 : codesVal [] = 0 := rfl
      rw [h0, Nat.zero_mul, symIterChars_zero, List.map_nil]
    | c :: rest =>
      obtain ⟨f, rfl⟩ : ∃ f, fuel = f + 1 := ⟨fuel - 1, by omega⟩
      have hc : 1 ≤ c ∧ c ≤ 63 := hgood c (by simp)
      have hlen2 : rest.length + 1 + (d + 1) ≤ 9 := by simpa using hlen
      have hsv : codesVal (c :: rest) < 64 ^ (rest.length + 1) := by
        have := codesVal_lt (c :: rest) (fun k hk => by
          have := hgood k hk; omega)
        simpa using this
      have hsv1 : 1 ≤ codesVal (c :: rest) := by
        rw [codesVal_cons]
        have h64 : 0 < 64 ^ rest.length := Nat.pos_pow_of_pos _ (by norm_num)
        have hpos : 0 < c * 64 ^ rest.length := Nat.mul_pos (by omega) h64
        omega
      have hlt : codesVal (c :: rest) * 64 ^ (9 - (c :: rest).length - (d + 1)) < 2 ^ 48 := by
        rw [List.length_cons]
        calc codesVal (c :: rest) * 64 ^ (9 - (rest.length + 1) - (d + 1))
            < 64 ^ (rest.length + 1) * 64 ^ (9 - (rest.length + 1) - (d + 1)) :=
              (Nat.mul_lt_mul_right (Nat.pos_pow_of_pos _ (by norm_num))).mpr hsv
          _ = 64 ^ (rest.length + 1 + (9 - (rest.length + 1) - (d + 1))) := by rw [← pow_add]
          _ ≤ 64 ^ 8 := Nat.pow_le_pow_right (by norm_num) (by omega)
          _ = 2 ^ 48 := by norm_num
      have hne : codesVal (c :: rest) * 64 ^ (9 - (c :: rest).length - (d + 1)) ≠ 0 :=
        Nat.pos_iff_ne_zero.mp
          (Nat.mul_pos (by omega) (Nat.pos_pow_of_pos _ (by norm_num)))
      have hcode : codesVal (c :: rest) * 64 ^ (9 - (c :: rest).length - (d + 1))
          / 2 ^ 48 % 64 = 0 := by
        rw [Nat.div_eq_of_lt hlt]
      have hst : codesVal (c :: rest) * 64 ^ (9 - (c :: rest).length - (d + 1)) * 64 % 2 ^ 64
          = codesVal (c :: rest) * 64 ^ (9 - (c :: rest).length - d) := by
        rw [Nat.mul_assoc, ← pow_succ]
        rw [show 9 - (c :: rest).length - (d + 1) + 1 = 9 - (c :: rest).length - d by
          simp only [List.length_cons]; omega]
        apply Nat.mod_eq_of_lt
        calc codesVal (c :: rest) * 64 ^ (9 - (c :: rest).length - d)
            < 64 ^ (rest.length + 1) * 64 ^ (9 - (c :: rest).length - d) :=
              (Nat.mul_lt_mul_right (Nat.pos_pow_of_pos _ (by norm_num))).mpr hsv
          _ = 64 ^ (rest.length + 1 + (9 - (c :: rest).length - d)) := by rw [← pow_add]
          _ ≤ 64 ^ 9 := Nat.pow_le_pow_right (by norm_num)
              (by simp only [List.length_cons]; omega)
          _ < 2 ^ 64 := by norm_num
      rw [symIterChars_succ, if_neg hne, hcode]
      have hdec0 : decodeCode 0 = none := rfl
      rw [hdec0, hst]
      exact ihd (c :: rest) f hgood (by simp only [List.length_cons]; omega)
        (by simp only [List.length_cons] at hfuel ⊢; omega)

theorem decode_encode (b : List Nat) (hlen : b.length ≤ 9)
    (hval : ∀ c ∈ b, (encode_char c).isSome) :
    symIterChars 11 (codesVal (b.map codeOf)) = b := by
  have hgood := goodCodes_of_valid b hval
  have h := symIter_phase1 (9 - b.length) (b.map codeOf) 11 hgood
    (by simp [List.length_map]; omega) (by simp [List.length_map]; omega)
  rw [List.length_map] at h
  rw [show 9 - b.length - (9 - b.length) = 0 by omega, pow_zero, Nat.mul_one] at h
  rw [h, List.map_map]
  have : ∀ a ∈ b, (decodeByte ∘ codeOf) a = a := by
    intro a ha
    have h1 : encode_char a = some (codeOf a) :=
      encode_char_eq_some_codeOf (hval a ha)
    have h2 : decodeCode (codeOf a) = some a := encode_decode_char h1
    simp [Function.comp, decodeByte, h2]
  rw [List.map_congr_left this]
  simp

theorem symbolStrLen_append_zeros (b : List Nat) (m : Nat) (h : ∀ c ∈ b, c ≠ 0) :
    symbolStrLen (b ++ List.replicate m 0) = b.length := by
  induction b with
  | nil =>
    cases m with
    | zero => rfl
    | succ k => simp [List.replicate_succ, symbolStrLen]
  | cons x xs ih =>
    have hx : x ≠ 0 := h x (by simp)
    have hxs : ∀ c ∈ xs, c ≠ 0 := fun c hc => h c (List.mem_cons_of_mem _ hc)
    show (if x = 0 then 0 else 1 + symbolStrLen (xs ++ List.replicate m 0))
      = (x :: xs).length
    rw [if_neg hx, ih hxs, List.length_cons]
    omega

theorem to_str_roundtrip (b : List Nat) (hlen : b.length ≤ 9)
    (hval : ∀ c ∈ b, (encode_char c).isSome) :
    symbolStrBytes (to_str (codesVal (b.map codeOf))) = b := by
  have hnz : ∀ c ∈ b, c ≠ 0 := fun c hc => admissible_byte_ne_zero (hval c hc)
  simp only [to_str, symbolStrBytes]
  rw [decode_encode b hlen hval]
  rw [symbolStrLen_append_zeros b _ hnz]
  exact List.take_left b _

/-! ## Claim theorems about the symbol encoding -/

/-- Claim C2, counterexample: the claimed consensus bodies for `"abc"`
and `"ABC"` are wrong. The source (and its `test_enc` vectors) packs
`"abc"` to `0x269e8 = 158184`, not `0x269a7a8`, and `"ABC"` to
`0xc34e = 49998`, not `0x30d0e`. -/
theorem c2_counterexample :
    try_from_str [97, 98, 99] = Except.ok 158184 ∧ (158184 : Nat) ≠ 0x269a7a8 ∧
    try_from_str [65, 66, 67] = Except.ok 49998 ∧ (49998 : Nat) ≠ 0x30d0e :=
  ⟨rfl, by norm_num, rfl, by norm_num⟩

/-- Claim C2, amended: the packed small-symbol bodies produced by
`SymbolSmall::try_from_str` equal the exact consensus test vectors:
the body of `"a"` equals `0x26`, of `"ab"` equals `0x9a7`, of `"abc"`
equals `0x269e8`, and of `"ABC"` equals `0xc34e`. -/
theorem c2_encoding_vectors :
    try_from_str [97] = Except.ok 0x26 ∧
    try_from_str [97, 98] = Except.ok 0x9a7 ∧
    try_from_str [97, 98, 99] = Except.ok 0x269e8 ∧
    try_from_str [65, 66, 67] = Except.ok 0xc34e :=
  ⟨rfl, rfl, rfl, rfl⟩

/-- Claim C3, counterexample: the 6-bit character codes are not
left-aligned in the 54-bit body. For the one-character input `"a"`
(code 38) the body is `0x26`, whose highest-order 6 bits
(bits 48..53) are `0`, not the first character's code 38: the code
sits in the low-order bits instead. -/
theorem c3_counterexample :
    try_from_str [97] = Except.ok 0x26 ∧ encode_char 97 = some 38 ∧
    (0x26 : Nat) / 2 ^ 48 % 64 = 0 ∧ (0 : Nat) ≠ 38 :=
  ⟨rfl, rfl, by norm_num, by norm_num⟩

/-- Claim C3, amended: for every small symbol produced by
`SymbolSmall::try_from_bytes` from a non-empty admissible input of
length `n`, the character codes are right-aligned within the body:
the first character occupies the highest-order 6 bits **of the
`6·n`-bit packed value** (`body = code(first) · 64^(n-1) + low` with
`low < 64^(n-1)`), and the body's remaining high-order bits up to bit
53 are zero padding (`body < 64^n`). -/
theorem c3_right_aligned (c : Nat) (rest : List Nat)
    (hlen : (c :: rest).length ≤ 9)
    (hval : ∀ x ∈ c :: rest, (encode_char x).isSome) :
    try_from_bytes (c :: rest) =
      Except.ok (codeOf c * 64 ^ rest.length + codesVal (rest.map codeOf)) ∧
    codesVal (rest.map codeOf) < 64 ^ rest.length ∧
    codeOf c * 64 ^ rest.length + codesVal (rest.map codeOf) <
      64 ^ (c :: rest).length := by
  have hrest : ∀ x ∈ rest, (encode_char x).isSome :=
    fun x hx => hval x (List.mem_cons_of_mem _ hx)
  have h1 := try_from_bytes_ok (c :: rest) hlen hval
  rw [List.map_cons, codesVal_cons, List.length_map] at h1
  have h2 : codesVal (rest.map codeOf) < 64 ^ rest.length := by
    have := codesVal_lt (rest.map codeOf) (fun k hk => by
      have := goodCodes_of_valid rest hrest k hk; omega)
    simpa [List.length_map] using this
  refine ⟨h1, h2, ?_⟩
  have hfull : codesVal ((c :: rest).map codeOf) < 64 ^ (c :: rest).length := by
    have := codesVal_lt ((c :: rest).map codeOf) (fun k hk => by
      have := goodCodes_of_valid (c :: rest) hval k hk; omega)
    simpa [List.length_map] using this
  rw [List.map_cons, codesVal_cons, List.length_map] at hfull
  exact hfull

/-- Claim C3, witness: the amended right-alignment property at the
concrete input `"ab"`. -/
theorem c3_right_aligned_witness :
    try_from_bytes [97, 98] =
      Except.ok (codeOf 97 * 64 ^ 1 + codesVal ([98].map codeOf)) ∧
    codesVal ([98].map codeOf) < 64 ^ 1 ∧
    codeOf 97 * 64 ^ 1 + codesVal ([98].map codeOf) < 64 ^ 2 :=
  c3_right_aligned 97 [98] (by norm_num) (by decide)

/-- Claim C4: for every byte string of length at most 9 over
`[a-zA-Z0-9_]`, `SymbolSmall::try_from_str` succeeds and
`to_str` renders the resulting body back to exactly the input,
byte for byte. -/
theorem c4_roundtrip (s : List Nat) (hlen : s.length ≤ 9)
    (hval : ∀ c ∈ s, (encode_char c).isSome) :
    ∃ body, try_from_str s = Except.ok body ∧
      symbolStrBytes (to_str body) = s := by
  refine ⟨codesVal (s.map codeOf), ?_, ?_⟩
  · exact try_from_bytes_ok s hlen hval
  · exact to_str_roundtrip s hlen hval

/-- Claim C4, witness: the round trip at the empty string and at
`"123456789"`. -/
theorem c4_roundtrip_witness :
    (∃ body, try_from_str [] = Except.ok body ∧
      symbolStrBytes (to_str body) = []) ∧
    ∃ body, try_from_str [49, 50, 51, 52, 53, 54, 55, 56, 57] = Except.ok body ∧
      symbolStrBytes (to_str body) = [49, 50, 51, 52, 53, 54, 55, 56, 57] :=
  ⟨c4_roundtrip [] (by norm_num) (by decide),
   c4_roundtrip [49, 50, 51, 52, 53, 54, 55, 56, 57] (by norm_num) (by decide)⟩

/-- Claim C5: for admissible byte strings of length at most 9, the
`Ord for SymbolSmall` comparison of the packed bodies — which proceeds
over the iterator-decoded character sequences, not numerically on the
bodies — agrees with byte-wise lexicographic comparison of the original
strings. -/
theorem c5_ordering (a b : List Nat) (ha : validSmall a) (hb : validSmall b)
    (x y : Nat) (hx : try_from_str a = Except.ok x)
    (hy : try_from_str b = Except.ok y) :
    symbolSmallCmp x y = bytesCmp a b := by
  obtain ⟨hal, hav⟩ := ha
  obtain ⟨hbl, hbv⟩ := hb
  have hal9 : a.length ≤ 9 := hal
  have hbl9 : b.length ≤ 9 := hbl
  have hxe : x = codesVal (a.map codeOf) := by
    have h1 := try_from_bytes_ok a hal9 hav
    rw [show try_from_str a = try_from_bytes a from rfl, h1] at hx
    injection hx with h2
    exact h2.symm
  have hye : y = codesVal (b.map codeOf) := by
    have h1 := try_from_bytes_ok b hbl9 hbv
    rw [show try_from_str b = try_from_bytes b from rfl, h1] at hy
    injection hy with h2
    exact h2.symm
  rw [hxe, hye]
  unfold symbolSmallCmp
  rw [decode_encode a hal9 hav, decode_encode b hbl9 hbv]

/-- Claim C5, witness: ordering agreement at `"A"` versus `"a"`. -/
theorem c5_ordering_witness :
    symbolSmallCmp 12 38 = bytesCmp [65] [97] :=
  c5_ordering [65] [97] (by constructor <;> decide) (by constructor <;> decide)
    12 38 rfl rfl

/-! ## Lemmas and claim theorems about the budget -/

theorem chargeDim_eq (bd : BudgetDimension) (ty iterations : Nat) (input : Option Nat)
    {cm : MeteredCostComponent} {cnt : Nat}
    (hcm : getCostModel bd ty = some cm) (hcnt : bd.counts.get? ty = some cnt) :
    chargeDim bd ty iterations input =
      (if satAdd bd.total_count (satMul (evaluate cm input) iterations) > bd.limit then
        some (Except.error ScError.budgetExceededLimit,
          { bd with
            counts := bd.counts.set ty
              (satAdd cnt (satMul (evaluate cm input) iterations))
            total_count := satAdd bd.total_count (satMul (evaluate cm input) iterations) })
      else
        some (Except.ok (),
          { bd with
            counts := bd.counts.set ty
              (satAdd cnt (satMul (evaluate cm input) iterations))
            total_count := satAdd bd.total_count (satMul (evaluate cm input) iterations) })) := by
  unfold chargeDim
  rw [hcm, hcnt]

/-- Claim C1: `BudgetDimension::charge` computes
`amount = evaluate(input) ·sat iterations`, saturating-adds it to both
`counts[ty]` and `total_count` before the overrun check, and returns
`(Budget, ExceededLimit)` exactly when the updated total exceeds the
limit; after an overrunning charge `counts[ty]` retains the fully added
amount, overrun contribution included. -/
theorem c1_dimension_charge (bd : BudgetDimension) (ty iterations : Nat)
    (input : Option Nat) (hm : ty < bd.cost_models.length)
    (hc : ty < bd.counts.length) :
    ∃ cm cnt r bd2,
      getCostModel bd ty = some cm ∧
      bd.counts.get? ty = some cnt ∧
      chargeDim bd ty iterations input = some (r, bd2) ∧
      bd2.counts.get? ty = some (satAdd cnt (satMul (evaluate cm input) iterations)) ∧
      bd2.total_count = satAdd bd.total_count (satMul (evaluate cm input) iterations) ∧
      bd2.limit = bd.limit ∧
      bd2.cost_models = bd.cost_models ∧
      (r = Except.error ScError.budgetExceededLimit ↔ bd2.total_count > bd.limit) ∧
      (r = Except.ok () ↔ bd2.total_count ≤ bd.limit) := by
  obtain ⟨cm, hcm⟩ : ∃ cm, getCostModel bd ty = some cm := by
    unfold getCostModel
    rw [List.get?_eq_get hm]
    exact ⟨_, rfl⟩
  obtain ⟨cnt, hcnt⟩ : ∃ cnt, bd.counts.get? ty = some cnt := by
    rw [List.get?_eq_get hc]
    exact ⟨_, rfl⟩
  have heq := chargeDim_eq bd ty iterations input hcm hcnt
  by_cases hover : satAdd bd.total_count (satMul (evaluate cm input) iterations) > bd.limit
  · refine ⟨cm, cnt, Except.error ScError.budgetExceededLimit,
      { bd with
        counts := bd.counts.set ty (satAdd cnt (satMul (evaluate cm input) iterations))
        total_count := satAdd bd.total_count (satMul (evaluate cm input) iterations) },
      hcm, hcnt, ?_, ?_, rfl, rfl, rfl, ?_, ?_⟩
    · rw [heq, if_pos hover]
    · exact List.get?_set_eq_of_lt _ hc
    · simpa using hover
    · simp
      omega
  · refine ⟨cm, cnt, Except.ok (),
      { bd with
        counts := bd.counts.set ty (satAdd cnt (satMul (evaluate cm input) iterations))
        total_count := satAdd bd.total_count (satMul (evaluate cm input) iterations) },
      hcm, hcnt, ?_, ?_, rfl, rfl, rfl, ?_, ?_⟩
    · rw [heq, if_neg hover]
    · exact List.get?_set_eq_of_lt _ hc
    · simp
      omega
    · simpa using Nat.not_lt.mp hover

/-- Claim C1, witness: the charge characterization at a concrete
one-model dimension. -/
theorem c1_dimension_charge_witness :
    ∃ cm cnt r bd2,
      getCostModel ⟨[⟨1, 0⟩], 10, [0], 0⟩ 0 = some cm ∧
      (⟨[⟨1, 0⟩], 10, [0], 0⟩ : BudgetDimension).counts.get? 0 = some cnt ∧
      chargeDim ⟨[⟨1, 0⟩], 10, [0], 0⟩ 0 3 none = some (r, bd2) ∧
      bd2.counts.get? 0 = some (satAdd cnt (satMul (evaluate cm none) 3)) ∧
      bd2.total_count = satAdd (⟨[⟨1, 0⟩], 10, [0], 0⟩ : BudgetDimension).total_count
        (satMul (evaluate cm none) 3) ∧
      bd2.limit = (⟨[⟨1, 0⟩], 10, [0], 0⟩ : BudgetDimension).limit ∧
      bd2.cost_models = (⟨[⟨1, 0⟩], 10, [0], 0⟩ : BudgetDimension).cost_models ∧
      (r = Except.error ScError.budgetExceededLimit ↔
        bd2.total_count > (⟨[⟨1, 0⟩], 10, [0], 0⟩ : BudgetDimension).limit) ∧
      (r = Except.ok () ↔
        bd2.total_count ≤ (⟨[⟨1, 0⟩], 10, [0], 0⟩ : BudgetDimension).limit) :=
  c1_dimension_charge ⟨[⟨1, 0⟩], 10, [0], 0⟩ 0 3 none (by norm_num) (by norm_num)

/-- Claim C6: `Budget::with_free_budget(f)` clears the enabled flag
before running `f`, restores the prior value after `f` returns on the
success and the error path alike (the restore is unconditional, and the
result state's flag always equals the original), and while the flag is
cleared every charge (hence `charge` and `bulk_charge`, which both call
`BudgetImpl::charge`) returns success without modifying the dimension
counters or the tracker. -/
theorem c6_with_free_budget {T : Type} (f : BudgetImpl → Except ScError T × BudgetImpl)
    (b : BudgetImpl) :
    ((withFreeBudget f b).2.enabled = b.enabled) ∧
    (withFreeBudget f b =
      ((f { b with enabled := false }).1,
       { (f { b with enabled := false }).2 with enabled := b.enabled })) ∧
    (∀ (b2 : BudgetImpl) (ty : CostType) (iterations : Nat) (input : Option Nat),
      b2.enabled = false →
      budgetImplCharge b2 ty iterations input = some (Except.ok (), b2)) := by
  refine ⟨rfl, rfl, ?_⟩
  intro b2 ty iterations input hb2
  unfold budgetImplCharge
  rw [hb2]
  rfl

/-- Claim C6, witness: the free-budget scoping at the default budget and
a function that errors, with a disabled charge at `HostMemCpy`. -/
theorem c6_with_free_budget_witness :
    ((withFreeBudget (fun b => ((Except.error ScError.contextInternalError : Except ScError Unit), b))
        defaultBudgetImpl).2.enabled = defaultBudgetImpl.enabled) ∧
    (withFreeBudget (fun b => ((Except.error ScError.contextInternalError : Except ScError Unit), b))
        defaultBudgetImpl =
      ((fun b => ((Except.error ScError.contextInternalError : Except ScError Unit), b))
          { defaultBudgetImpl with enabled := false } |>.1,
       { ((fun b => ((Except.error ScError.contextInternalError : Except ScError Unit), b))
           { defaultBudgetImpl with enabled := false }).2 with
         enabled := defaultBudgetImpl.enabled })) ∧
    (∀ (b2 : BudgetImpl) (ty : CostType) (iterations : Nat) (input : Option Nat),
      b2.enabled = false →
      budgetImplCharge b2 ty iterations input = some (Except.ok (), b2)) :=
  c6_with_free_budget (T := Unit)
    (fun b => (Except.error ScError.contextInternalError, b)) defaultBudgetImpl

/-- Claim C7, counterexample: on the default budget, the single
`bulk_charge(HostMemAlloc, 200_000, Some(1024))` does return
`ExceededLimit`, but the memory-bytes total count does not reach
`208_000_000`: it stays `0`, because the CPU dimension is charged first
and already overruns, so the memory dimension is never charged. -/
theorem c7_counterexample :
    (budgetImplCharge defaultBudgetImpl CostType.HostMemAlloc 200000 (some 1024)).map
        (fun p => (p.1, p.2.mem_bytes.total_count)) =
      some (Except.error ScError.budgetExceededLimit, 0) ∧
    (0 : Nat) ≠ 208000000 :=
  ⟨rfl, by norm_num⟩

/-- Claim C7, amended: on the default budget (CPU limit `100_000_000`,
memory limit `104_857_600`), the single
`bulk_charge(HostMemAlloc, 200_000, Some(1024))` returns
`ExceededLimit`, raised by the CPU dimension whose total reaches
`200_000·(1141 + (1·1024)>>7) = 229_800_000 > 100_000_000`; the
memory-bytes total remains `0` since the memory dimension is only
charged after a successful CPU charge. Had it been charged, the memory
amount `200_000·(16 + (128·1024)>>7) = 208_000_000` would exceed the
memory limit as the claim computes. -/
theorem c7_cpu_exceeds_first :
    (budgetImplCharge defaultBudgetImpl CostType.HostMemAlloc 200000 (some 1024)).map
        (fun p => (p.1, p.2.cpu_insns.total_count, p.2.mem_bytes.total_count)) =
      some (Except.error ScError.budgetExceededLimit, 229800000, 0) ∧
    defaultBudgetImpl.cpu_insns.limit = 100000000 ∧
    defaultBudgetImpl.mem_bytes.limit = 104857600 ∧
    (229800000 : Nat) > 100000000 ∧
    evaluate (defaultMemModel CostType.HostMemAlloc) (some 1024) = 1040 ∧
    satMul 1040 200000 = 208000000 ∧
    (208000000 : Nat) > 104857600 :=
  ⟨rfl, rfl, rfl, by norm_num, rfl, rfl, by norm_num⟩

/-- Claim C8: `memory_growing(current, desired, maximum)` denies growth
(with `OutOfBoundsGrowth` and no state change) when `desired` exceeds
the remaining memory-bytes budget or exceeds `maximum`; otherwise it
bulk-charges `WasmMemAlloc` with `desired - current` iterations and no
input, returning `true` on success and surfacing any charging failure
as `OutOfBoundsGrowth`. -/
theorem c8_memory_growing (b : BudgetImpl) (current desired : Nat)
    (maximum : Option Nat) :
    ((desired > memBytesRemaining b ∨ (∃ mx, maximum = some mx ∧ desired > mx)) →
      memoryGrowing b current desired maximum =
        some (Except.error MemoryError.outOfBoundsGrowth, b)) ∧
    (desired ≤ memBytesRemaining b → (∀ mx, maximum = some mx → desired ≤ mx) →
      memoryGrowing b current desired maximum =
        match budgetImplCharge b CostType.WasmMemAlloc (desired - current) none with
        | none => none
        | some (Except.ok _, b2) => some (Except.ok true, b2)
        | some (Except.error _, b2) =>
          some (Except.error MemoryError.outOfBoundsGrowth, b2)) := by
  constructor
  · rintro (hgt | ⟨mx, rfl, hmx⟩)
    · simp only [memoryGrowing]
      rw [if_pos hgt]
      simp
    · simp only [memoryGrowing]
      by_cases hhl : desired > memBytesRemaining b
      · rw [if_pos hhl]
        simp
      · rw [if_neg hhl]
        simp only [decide_eq_false (by omega : ¬ desired ≤ mx)]
        simp
  · intro hle hmx
    simp only [memoryGrowing]
    rw [if_neg (by omega : ¬ desired > memBytesRemaining b)]
    cases maximum with
    | none => simp
    | some mx =>
      simp only [decide_eq_true (hmx mx rfl)]
      simp

/-- Claim C8, witness: the charging path at the default budget with a
growth from 0 to 10 bytes and no engine maximum. -/
theorem c8_memory_growing_witness :
    memoryGrowing defaultBudgetImpl 0 10 none =
      match budgetImplCharge defaultBudgetImpl CostType.WasmMemAlloc (10 - 0) none with
      | none => none
      | some (Except.ok _, b2) => some (Except.ok true, b2)
      | some (Except.error _, b2) =>
        some (Except.error MemoryError.outOfBoundsGrowth, b2) :=
  (c8_memory_growing defaultBudgetImpl 0 10 none).2 (by decide)
    (fun mx h => by cases h)

theorem collectModels_length : ∀ (ps : List (Int × Int)) (ms : List MeteredCostComponent),
    collectModels ps = .ok ms → ms.length = ps.length := by
  intro ps
  induction ps with
  | nil =>
    intro ms h
    cases h
    rfl
  | cons e rest ih =>
    intro ms h
    unfold collectModels at h
    cases hcc : costComponentTryFrom e with
    | error err => rw [hcc] at h; cases h
    | ok m =>
      rw [hcc] at h
      cases hcr : collectModels rest with
      | error err => rw [hcr] at h; cases h
      | ok ms2 =>
        rw [hcr] at h
        cases h
        simp [ih ms2 hcr]

/-- Claim C10: a `BudgetDimension` built by `try_from_config` from a
schedule with fewer entries than cost-type ordinals is not total:
`get_cost_model` and `charge` hit out-of-bounds vector indexing (a
panic, modelled by `none`) for any cost type whose ordinal is at least
the schedule length, and charging only succeeds in returning a value
when the ordinal is covered by the schedule. -/
theorem c10_short_schedule (ps : List (Int × Int)) (bd : BudgetDimension)
    (hok : tryFromConfig ps = Except.ok bd) (ty iterations : Nat)
    (input : Option Nat) :
    (ty ≥ ps.length →
      getCostModel bd ty = none ∧ chargeDim bd ty iterations input = none) ∧
    (ty < ps.length → (chargeDim bd ty iterations input).isSome) := by
  unfold tryFromConfig at hok
  cases hcm : collectModels ps with
  | error err => rw [hcm] at hok; cases hok
  | ok ms =>
    rw [hcm] at hok
    have hbd : bd =
        ({ cost_models := ms, limit := 0, counts := List.replicate ps.length 0,
           total_count := 0 } : BudgetDimension) := by
      cases hok
      rfl
    subst hbd
    have hlen : ms.length = ps.length := collectModels_length ps ms hcm
    constructor
    · intro hge
      have hnone : ms.get? ty = none := List.get?_eq_none.mpr (by omega)
      constructor
      · exact hnone
      · unfold chargeDim getCostModel
        rw [hnone]
    · intro hlt
      have hmlt : ty < ms.length := by omega
      obtain ⟨cm, hcm2⟩ : ∃ cm, getCostModel
          ({ cost_models := ms, limit := 0, counts := List.replicate ps.length 0,
             total_count := 0 } : BudgetDimension) ty = some cm := by
        show ∃ cm, ms.get? ty = some cm
        rw [List.get?_eq_get hmlt]
        exact ⟨_, rfl⟩
      obtain ⟨cnt, hcnt⟩ : ∃ cnt,
          (({ cost_models := ms, limit := 0, counts := List.replicate ps.length 0,
              total_count := 0 } : BudgetDimension).counts).get? ty = some cnt := by
        show ∃ cnt, (List.replicate ps.length (0 : Nat)).get? ty = some cnt
        rw [List.get?_eq_get (by simpa using hlt)]
        exact ⟨_, rfl⟩
      rw [chargeDim_eq _ ty iterations input hcm2 hcnt]
      split_ifs <;> rfl

/-- Claim C10, witness: a one-entry schedule panics (`none`) when
charged at ordinal 1 and succeeds at ordinal 0. -/
theorem c10_short_schedule_witness :
    (getCostModel ⟨[⟨1, 2⟩], 0, [0], 0⟩ 1 = none ∧
      chargeDim ⟨[⟨1, 2⟩], 0, [0], 0⟩ 1 5 none = none) ∧
    (chargeDim ⟨[⟨1, 2⟩], 0, [0], 0⟩ 0 5 none).isSome :=
  ⟨(c10_short_schedule [(1, 2)] ⟨[⟨1, 2⟩], 0, [0], 0⟩ rfl 1 5 none).1 (by norm_num),
   (c10_short_schedule [(1, 2)] ⟨[⟨1, 2⟩], 0, [0], 0⟩ rfl 0 5 none).2 (by norm_num)⟩

/-! ## Claim theorem about the storage facade -/

/-- Claim C9: `bump_contract_instance_and_code` first bumps the
contract-instance ledger entry with the given watermarks; then, when the
stored instance's executable is `Wasm(h)`, it additionally bumps the
`ContractCode(h)` entry with the same watermarks, and when the
executable is `Token`, no code entry is bumped. -/
theorem c9_bump_instance_and_code (st : StorageModel) (cid lo hi : Nat) :
    (∀ h : Nat, st.instanceOf cid = some (ContractExecutable.wasm h) →
      bumpContractInstanceAndCode st cid lo hi =
        (Except.ok (), { st with bumps := st.bumps ++
          [(LedgerKey.contractInstance cid, lo, hi),
           (LedgerKey.contractCode h, lo, hi)] })) ∧
    (st.instanceOf cid = some ContractExecutable.token →
      bumpContractInstanceAndCode st cid lo hi =
        (Except.ok (), { st with bumps := st.bumps ++
          [(LedgerKey.contractInstance cid, lo, hi)] })) := by
  constructor
  · intro h hw
    unfold bumpContractInstanceAndCode retrieveContractInstance storageBump
    simp only [hw, List.append_assoc]
    rfl
  · intro ht
    unfold bumpContractInstanceAndCode retrieveContractInstance storageBump
    simp only [ht]

/-- Claim C9, witness: with a stored `Wasm(7)` executable, bumping
contract 3 records the instance bump followed by the code bump. -/
theorem c9_bump_witness :
    (bumpContractInstanceAndCode
        ⟨fun _ => some (ContractExecutable.wasm 7), []⟩ 3 10 20).2.bumps =
      [(LedgerKey.contractInstance 3, 10, 20),
       (LedgerKey.contractCode 7, 10, 20)] := by
  have h := (c9_bump_instance_and_code
    ⟨fun _ => some (ContractExecutable.wasm 7), []⟩ 3 10 20).1 7 rfl
  rw [h]
  rfl
